import Mathlib

/-!
Verification of the autocontainer runtime resolution engine.

The development shallowly embeds the two runtime source files:
* `RuntimeContainer` (scopes, providers, aliases, cache policies, the
  resolution stack and the per-token instance pools, with the public
  `make` and the private resolution step);
* `lazy` / `isLazy` (the forwarding placeholder and its type predicate).

Scopes are addressed by their index in a world-level list, JS `Map`s are
association lists (`mget`/`mset`/`mdel` mirror `get`/`set`/`delete`
including the key-position behaviour), providers are a small command
language covering the shapes the specification exercises (a factory
producing a fresh instance, a factory resolving one dependency through
the container it receives and storing it, and a throwing factory), and
machine behaviour that can diverge (alias cycles) runs on fuel:
`none` means the fuel ran out before the call completed.
-/

deriving instance DecidableEq for Except

namespace Autocontainer

/-- Association-list model of a JS `Map`: `get`. -/
def mget {α : Type} : List (String × α) → String → Option α
  | [], _ => none
  | (k, v) :: r, t => if k = t then some v else mget r t

/-- Association-list model of a JS `Map`: `set` (updates in place, appends new keys). -/
def mset {α : Type} : List (String × α) → String → α → List (String × α)
  | [], t, v => [(t, v)]
  | (k, u) :: r, t, v => if k = t then (t, v) :: r else (k, u) :: mset r t v

/-- Association-list model of a JS `Map`: `delete`. -/
def mdel {α : Type} : List (String × α) → String → List (String × α)
  | [], _ => []
  | (k, u) :: r, t => if k = t then r else (k, u) :: mdel r t

/-- `BindOptions` from Container.ts: `SingletonBindOptions | PoolBindOptions`.
The constructor records which key is present; the carried value is the
runtime value stored under that key. -/
inductive BindOptions where
  | singleton (value : Bool)
  | pool (value : Int)
deriving DecidableEq, Repr

/-- Runtime values produced by resolution.  `obj id` is a fresh instance
tagged with its allocation sequence number; `objWith id stored` is a fresh
instance that stored the value its factory resolved through the container;
`lazyV sid token hint` is the forwarding placeholder produced by
`lazy(() => this.make(token, classHint))` with `this` being scope `sid`. -/
inductive Value where
  | obj (id : Nat)
  | objWith (id : Nat) (stored : Value)
  | lazyV (sid : Nat) (token : String) (hint : Option Nat)
deriving DecidableEq, Repr

/-- `isLazy` from lazy.ts: membership in the `lazies` weak set, i.e. the
value was constructed by `lazy`. -/
def isLazy : Value → Bool
  | .lazyV _ _ _ => true
  | _ => false

/-- Failures observable from `make`: the missing-provider `Error` thrown by
the resolution step, and exceptions thrown inside a provider. -/
inductive Err where
  | noProvider (name : String)
  | provErr (msg : String)
deriving DecidableEq, Repr

/-- Provider command language (`Provider<T> = (container, classHint?) => T`):
`fresh` returns a new instance; `freshDep dep` first calls
`container.make(dep)`, stores the result in the new instance and returns it;
`throwErr msg` throws. -/
inductive Prov where
  | fresh
  | freshDep (dep : String)
  | throwErr (msg : String)
deriving DecidableEq, Repr

/-- The per-scope state of `RuntimeContainer`: `#parent`, `#providers`,
`#hints`, `#bindings`, `#bindOptions`, `#makeStack` and `#pool`.
Class hints (constructor references) are opaque numeric identifiers. -/
structure RuntimeContainer where
  parent : Option Nat
  providers : List (String × Prov)
  hints : List (String × Nat)
  bindings : List (String × String)
  bindOptions : List (String × BindOptions)
  makeStack : List String
  pool : List (String × List Value)
deriving DecidableEq, Repr

/-- A world: every scope created so far (addressed by index) and the next
fresh instance tag. -/
structure World where
  scopes : List RuntimeContainer
  nextId : Nat
deriving DecidableEq, Repr

def emptyContainer (parent : Option Nat) : RuntimeContainer :=
  ⟨parent, [], [], [], [], [], []⟩

def getScope (w : World) (i : Nat) : RuntimeContainer :=
  w.scopes.getD i (emptyContainer none)

def setScope (w : World) (i : Nat) (s : RuntimeContainer) : World :=
  ⟨w.scopes.set i s, w.nextId⟩

/-- The characters before the first `@`. -/
def stripAtAux : List Char → List Char
  | [] => []
  | c :: r => if c = '@' then [] else c :: stripAtAux r

/-- `token.split("@").shift()`: the human-readable token name, the token
with any suffix beginning at its first `@` stripped (the whole token when
it has no `@`). -/
def stripAt (t : String) : String :=
  ⟨stripAtAux t.data⟩

/-- The capacity the public `make` derives from the bind options:
`"singleton" in options ? 1 : "pool" in options ? options.pool : undefined`.
Key presence decides; a singleton's boolean value is ignored. -/
def optCap : Option BindOptions → Option Int
  | none => none
  | some (.singleton _) => some 1
  | some (.pool n) => some n

/-- The guard `pool != null && pool > 0`, applied to the derived capacity. -/
def activeCap : Option Int → Option Int
  | none => none
  | some n => if 0 < n then some n else none

/-- `this.#makeStack.push(token)` on scope `sid`. -/
def pushStack (w : World) (sid : Nat) (token : String) : World :=
  let s := getScope w sid
  setScope w sid { s with makeStack := s.makeStack ++ [token] }

/-- `this.#makeStack.pop()` on scope `sid` (the `finally` block). -/
def popStack (w : World) (sid : Nat) : World :=
  let s := getScope w sid
  setScope w sid { s with makeStack := s.makeStack.dropLast }

/-- `classHint ?? this.#hints.get(token)`: the nullish-coalescing fallback. -/
def hintOr (hint : Option Nat) (fallback : Option Nat) : Option Nat :=
  match hint with
  | some h => some h
  | none => fallback

/-- The alias target `#make` acts on: `const binding = this.#bindings.get(token);
if (binding) ...` — a JS string is truthy exactly when it is nonempty. -/
def aliasTarget (s : RuntimeContainer) (token : String) : Option String :=
  match mget s.bindings token with
  | some b => if b = "" then none else some b
  | none => none

/-- One pending activation of the engine: the public `make` on a scope, the
private `#make` with `this = sid` and `container = csid`, or a provider run. -/
inductive Call where
  | mk (sid : Nat) (token : String) (hint : Option Nat)
  | mkP (sid : Nat) (csid : Nat) (token : String) (hint : Option Nat)
  | run (p : Prov) (csid : Nat) (hint : Option Nat)
deriving Repr

/-- Fuel-indexed interpreter of the resolution engine.

`Call.mk` is `RuntimeContainer.make` (part_000 lines 58-93): read the bind
options of the requested token in this scope only, derive the capacity,
create the pool entry when a positive capacity exists, recycle (remove the
last cached element, reinsert it at the front, return it) when the pool is
full, otherwise resolve via `#make` and insert a non-placeholder result at
the front of a not-yet-full pool.

`Call.mkP` is `RuntimeContainer.#make` (lines 29-54): follow a (truthy)
alias by re-entering the public `make` on this scope; answer a forwarding
placeholder when the token is already on this scope's resolution stack;
otherwise push the token, look up the provider, delegate to the parent when
absent (failing with the missing-provider error at the root), and pop the
token on every exit path (the `finally` block).

`Call.run` invokes a provider with the container the top-level `make` was
entered on. -/
def exec : Nat → World → Call → Option (Except Err Value × World)
  | 0, _, _ => none
  | f + 1, w, c =>
    match c with
    | .mk sid token hint =>
      let s := getScope w sid
      -- the source checks `pool != null && pool > 0` twice with the same
      -- outcome; the translation cases on the derived capacity once
      match activeCap (optCap (mget s.bindOptions token)) with
      | none => exec f w (.mkP sid sid token hint)
      | some n =>
        let w1 :=
          match mget s.pool token with
          | some _ => w
          | none => setScope w sid { s with pool := mset s.pool token [] }
        let insts := (mget s.pool token).getD []
        if (insts.length : Int) ≥ n then
          match insts.getLast? with
          | some inst =>
            let s1 := getScope w1 sid
            some (.ok inst,
              setScope w1 sid { s1 with pool := mset s1.pool token (inst :: insts.dropLast) })
          | none => none
        else
          match exec f w1 (.mkP sid sid token hint) with
          | none => none
          | some (.error e, w2) => some (.error e, w2)
          | some (.ok r, w2) =>
            let s2 := getScope w2 sid
            let insts2 := (mget s2.pool token).getD []
            if isLazy r = false ∧ (insts2.length : Int) < n then
              some (.ok r, setScope w2 sid { s2 with pool := mset s2.pool token (r :: insts2) })
            else some (.ok r, w2)
    | .mkP sid csid token hint =>
      let s := getScope w sid
      match aliasTarget s token with
      | some b => exec f w (.mk sid b none)
      | none =>
        if token ∈ s.makeStack then
          some (.ok (.lazyV sid token hint), w)
        else
          let w1 := pushStack w sid token
          let r :=
            match mget s.providers token with
            | none =>
              match s.parent with
              | some p => exec f w1 (.mkP p csid token hint)
              | none => some (.error (.noProvider (stripAt token)), w1)
            | some prov =>
              exec f w1 (.run prov csid (hintOr hint (mget s.hints token)))
          match r with
          | none => none
          | some (res, w2) => some (res, popStack w2 sid)
    | .run p csid _hint =>
      match p with
      | .fresh => some (.ok (.obj w.nextId), ⟨w.scopes, w.nextId + 1⟩)
      | .freshDep dep =>
        match exec f w (.mk csid dep none) with
        | none => none
        | some (.error e, w2) => some (.error e, w2)
        | some (.ok v, w2) => some (.ok (.objWith w2.nextId v), ⟨w2.scopes, w2.nextId + 1⟩)
      | .throwErr msg => some (.error (.provErr msg), w)

/-- `make(token, classHint?)`, the public entry point, on scope `sid`. -/
def make (fuel : Nat) (w : World) (sid : Nat) (token : String) (hint : Option Nat) :
    Option (Except Err Value × World) :=
  exec fuel w (.mk sid token hint)

/-- `provide(token, provider, bindOptions?)`: register/overwrite the
provider; set the bind options when given, clear them otherwise. -/
def provide (w : World) (sid : Nat) (token : String) (p : Prov)
    (opts : Option BindOptions) : World :=
  let s := getScope w sid
  let s := { s with providers := mset s.providers token p }
  let s :=
    match opts with
    | some o => { s with bindOptions := mset s.bindOptions token o }
    | none => { s with bindOptions := mdel s.bindOptions token }
  setScope w sid s

/-- `bind(bindOptions, abstractToken, concreteToken, concreteClassHint?)`:
record the alias when the tokens differ, associate the hint with the
concrete token when given, set or clear the abstract token's bind options. -/
def bind (w : World) (sid : Nat) (opts : Option BindOptions)
    (abstractToken concreteToken : String) (hint : Option Nat) : World :=
  let s := getScope w sid
  let s :=
    if abstractToken ≠ concreteToken then
      { s with bindings := mset s.bindings abstractToken concreteToken }
    else s
  let s :=
    match hint with
    | some h => { s with hints := mset s.hints concreteToken h }
    | none => s
  let s :=
    match opts with
    | some o => { s with bindOptions := mset s.bindOptions abstractToken o }
    | none => { s with bindOptions := mdel s.bindOptions abstractToken }
  setScope w sid s

/-- `inner()`: a child scope whose parent is fixed at creation. -/
def inner (w : World) (sid : Nat) : World × Nat :=
  (⟨w.scopes ++ [emptyContainer (some sid)], w.nextId⟩, w.scopes.length)

/-- `Container.create()`: a fresh root scope. -/
def create : World := ⟨[emptyContainer none], 0⟩

/-- Dereferencing a value: an intercepted operation on a forwarding
placeholder triggers its deferred action `this.make(token, classHint)`
(the `get()` call inside every proxy trap); a real instance is used as is. -/
def force (fuel : Nat) (w : World) (v : Value) : Option (Except Err Value × World) :=
  match v with
  | .lazyV sid token hint => exec fuel w (.mk sid token hint)
  | v => some (.ok v, w)

/-- The mutable closure state of one `lazy(factory)` placeholder:
`let instance: any` and `let initialized = false`. -/
structure LazyCell (α : Type) where
  inst : Option α
  initialized : Bool
deriving DecidableEq, Repr

def LazyCell.init {α : Type} : LazyCell α := ⟨none, false⟩

/-- The `get` closure of `lazy` (part_001 lines 11-16), verbatim:

  if (!initialized) { instance = factory(); }
  return instance;

The factory is stateful (state type `σ`).  Note the source never assigns
`initialized = true`; the model keeps the flag exactly as the source does. -/
def lazyGet {α σ : Type} (factory : σ → α × σ) :
    LazyCell α × σ → Option α × (LazyCell α × σ) :=
  fun p =>
    let cell := p.1
    if cell.initialized then (cell.inst, (cell, p.2))
    else
      let q := factory p.2
      (some q.1, (⟨some q.1, cell.initialized⟩, q.2))

/-- A factory that tags each produced instance with a running sequence
number, to count its invocations. -/
def countFactory : Nat → Nat × Nat := fun n => (n, n + 1)

/-- The world a run left behind (`create` as a junk default for a run that
did not complete). -/
def afterW (r : Option (Except Err Value × World)) : World :=
  (r.map Prod.snd).getD create

/-- The outcome of a run, without the world. -/
def resOf (r : Option (Except Err Value × World)) : Option (Except Err Value) :=
  r.map Prod.fst

/-! ### Concrete scenarios used by the claims -/

/-- C2 scenario: `provide(C, fresh, pool 1); bind(undefined, A, C)` on a
root scope. Only `C` carries a cache policy; `A` is aliased to `C`. -/
def w2scen : World :=
  bind (provide create 0 "C" .fresh (some (.pool 1))) 0 none "A" "C" none

def c2r1 : Option (Except Err Value × World) := make 50 w2scen 0 "A" none
def c2r2 : Option (Except Err Value × World) := make 50 (afterW c2r1) 0 "A" none

/-- C3 scenario: mutually dependent providers, each a singleton, each
storing (without dereferencing) the instance it resolves for the other. -/
def w3scen : World :=
  provide (provide create 0 "A" (.freshDep "B") (some (.singleton true)))
    0 "B" (.freshDep "A") (some (.singleton true))

/-- The real B instance: it stored the forwarding placeholder that the
cycle-detected inner request for A returned. -/
def c3objB : Value := .objWith 0 (.lazyV 0 "A" none)

/-- The real A instance: it stored the real B instance. -/
def c3objA : Value := .objWith 1 c3objB

def c3r1 : Option (Except Err Value × World) := make 50 w3scen 0 "A" none

/-- C4 scenario: `provide(T, f, pool 2)` with a fresh-instance factory. -/
def w4scen : World := provide create 0 "T" .fresh (some (.pool 2))

def c4r1 : Option (Except Err Value × World) := make 50 w4scen 0 "T" none
def c4r2 : Option (Except Err Value × World) := make 50 (afterW c4r1) 0 "T" none
def c4r3 : Option (Except Err Value × World) := make 50 (afterW c4r2) 0 "T" none
def c4r4 : Option (Except Err Value × World) := make 50 (afterW c4r3) 0 "T" none
def c4r5 : Option (Except Err Value × World) := make 50 (afterW c4r4) 0 "T" none

/-- C5 scenario: a root with a singleton provider for `T` and two child
scopes created via `inner`, each registering its own singleton provider. -/
def w5scen : World :=
  let p0 := provide create 0 "T" .fresh (some (.singleton true))
  let p1 := inner p0 0
  let p2 := inner p1.1 0
  provide (provide p2.1 1 "T" .fresh (some (.singleton true)))
    2 "T" .fresh (some (.singleton true))

def c5p1 : Option (Except Err Value × World) := make 50 w5scen 0 "T" none
def c5p2 : Option (Except Err Value × World) := make 50 (afterW c5p1) 0 "T" none
def c5a1 : Option (Except Err Value × World) := make 50 (afterW c5p2) 1 "T" none
def c5a2 : Option (Except Err Value × World) := make 50 (afterW c5a1) 1 "T" none
def c5b1 : Option (Except Err Value × World) := make 50 (afterW c5a2) 2 "T" none

/-- C10 scenario: a provider registered with `{singleton: false}`, and an
alias registered with `{singleton: false}` via `bind`. -/
def w10scen : World := provide create 0 "T" .fresh (some (.singleton false))

def c10r1 : Option (Except Err Value × World) := make 50 w10scen 0 "T" none
def c10r2 : Option (Except Err Value × World) := make 50 (afterW c10r1) 0 "T" none

def w10bind : World :=
  bind (provide create 0 "C" .fresh none) 0 (some (.singleton false)) "A" "C" none

def c10b1 : Option (Except Err Value × World) := make 50 w10bind 0 "A" none
def c10b2 : Option (Except Err Value × World) := make 50 (afterW c10b1) 0 "A" none

/-- C6 scenario: a provider that throws. -/
def wBoom : World := provide create 0 "T" (.throwErr "boom") none

/-- C9 scenario: the root holds a singleton policy and a provider for `T`;
the child scope (index 1) holds neither. -/
def wC9 : World := (inner (provide create 0 "T" .fresh (some (.singleton true))) 0).1

def c9a1 : Option (Except Err Value × World) := make 50 wC9 1 "T" none
def c9a2 : Option (Except Err Value × World) := make 50 (afterW c9a1) 1 "T" none
def c9p1 : Option (Except Err Value × World) := make 50 (afterW c9a2) 0 "T" none
def c9p2 : Option (Except Err Value × World) := make 50 (afterW c9p1) 0 "T" none

/-- C7 scenario: the root aliases `A@v1` to `B@x` and registers no
provider; scope 1 is a child of the root. -/
def w7scen : World := (inner (bind create 0 none "A@v1" "B@x" none) 0).1

/-! ### Invariants and the specification-side resolution search -/

/-- The registries (parent link, providers, hints, aliases, bind options)
of every scope agree between two worlds; only resolution stacks, pools and
the allocation counter may differ. -/
def RegEq (w w' : World) : Prop :=
  w'.scopes.length = w.scopes.length ∧
  ∀ i, (getScope w' i).parent = (getScope w i).parent ∧
    (getScope w' i).providers = (getScope w i).providers ∧
    (getScope w' i).hints = (getScope w i).hints ∧
    (getScope w' i).bindings = (getScope w i).bindings ∧
    (getScope w' i).bindOptions = (getScope w i).bindOptions

/-- No scope's instance cache contains a forwarding placeholder. -/
def NoLazyInPools (w : World) : Prop :=
  ∀ s ∈ w.scopes, ∀ e ∈ s.pool, ∀ v ∈ e.2, isLazy v = false

/-- What one completed engine step guarantees: registries preserved, every
resolution stack restored, placeholder-freedom of the caches preserved, and
the cache of any (scope, token) pair without a locally registered policy
untouched. -/
def StepInv (w w' : World) : Prop :=
  RegEq w w' ∧
  (∀ i, (getScope w' i).makeStack = (getScope w i).makeStack) ∧
  (NoLazyInPools w → NoLazyInPools w') ∧
  (∀ s t, mget (getScope w s).bindOptions t = none →
    mget (getScope w' s).pool t = mget (getScope w s).pool t)

/-- Does a provider resolve further dependencies through the container? -/
def provResolving : Prov → Bool
  | .freshDep _ => true
  | _ => false

/-- Every registered provider is self-contained (no nested `make`). -/
def NonResolving (w : World) : Prop :=
  ∀ s ∈ w.scopes, ∀ e ∈ s.providers, provResolving e.2 = false

/-- No scope carries any cache policy. -/
def PoolsFree (w : World) : Prop :=
  ∀ s ∈ w.scopes, s.bindOptions = []

instance (w : World) : Decidable (NoLazyInPools w) :=
  inferInstanceAs (Decidable (∀ s ∈ w.scopes, ∀ e ∈ s.pool, ∀ v ∈ e.2, isLazy v = false))

instance (w : World) : Decidable (NonResolving w) :=
  inferInstanceAs (Decidable (∀ s ∈ w.scopes, ∀ e ∈ s.providers, provResolving e.2 = false))

instance (w : World) : Decidable (PoolsFree w) :=
  inferInstanceAs (Decidable (∀ s ∈ w.scopes, s.bindOptions = []))

/-- The world the C3 run ends in: both singletons cached, the placeholder
only inside the cached B instance, the allocation counter at 2. -/
def w3after : World :=
  ⟨[⟨none, [("A", .freshDep "B"), ("B", .freshDep "A")], [], [],
     [("A", .singleton true), ("B", .singleton true)], [],
     [("A", [.objWith 1 (.objWith 0 (.lazyV 0 "A" none))]),
      ("B", [.objWith 0 (.lazyV 0 "A" none)])]⟩], 2⟩

/-- The world the first C9 run ends in: only the allocation counter moved. -/
def wC9after : World := ⟨wC9.scopes, 1⟩

/-- Outcome of the specification-side provider search. -/
inductive SOut where
  | found
  | missing (finalToken : String)
  | cycled
deriving DecidableEq, Repr

/-- Activation shapes of the specification-side search, mirroring the
public/private split of the engine. -/
inductive SCall where
  | smk (sid : Nat) (token : String)
  | smkP (sid : Nat) (token : String)
deriving DecidableEq, Repr

/-- The provider search described by the specification's words, for the
missing-provider claim: resolution follows every alias (restarting at the
scope holding the alias), walks the full ancestor chain, short-circuits
when the token is already in flight on a scope's resolution stack, and
fails exactly when the chain bottoms out with no registered provider for
the (possibly aliased) token; the failing token is reported.  It consults
registries and resolution stacks only — it never reads, creates or writes
instance caches and never runs a provider. -/
def specSearch : Nat → World → SCall → Option (SOut × World)
  | 0, _, _ => none
  | f + 1, w, c =>
    match c with
    | .smk sid token => specSearch f w (.smkP sid token)
    | .smkP sid token =>
      let s := getScope w sid
      match aliasTarget s token with
      | some b => specSearch f w (.smk sid b)
      | none =>
        if token ∈ s.makeStack then some (.cycled, w)
        else
          let w1 := pushStack w sid token
          let r : Option (SOut × World) :=
            match mget s.providers token with
            | some _ => some (.found, w1)
            | none =>
              match s.parent with
              | some p => specSearch f w1 (.smkP p token)
              | none => some (.missing token, w1)
          match r with
          | none => none
          | some (out, w2) => some (out, popStack w2 sid)

/-! ### Claim theorems (concrete claims) -/

/-- C1: the claim says the first intercepted operation invokes the deferred
factory exactly once and caches the real instance for all later operations.
The source's `get` closure tests `initialized` but never sets it, so the
model shows the factory running again on the second operation: after two
`get()` calls the invocation counter is 2, the two operations saw two
different instances, and `initialized` is still `false`.  This evaluates
the code at the failing input of the code_bug verdict. -/
theorem lazy_factory_reinvoked_each_operation :
    (lazyGet countFactory (LazyCell.init, 0)).1 = some 0 ∧
    (lazyGet countFactory (lazyGet countFactory (LazyCell.init, 0)).2).1 = some 1 ∧
    (lazyGet countFactory (lazyGet countFactory (LazyCell.init, 0)).2).2.2 = 2 ∧
    (lazyGet countFactory (lazyGet countFactory (LazyCell.init, 0)).2).2.1.initialized = false := by
  decide

/-- C2 counterexample: with `provide(C, fresh, pool 1); bind(none, A, C)`,
the second `make(A)` does not produce a fresh instance: it returns the very
instance (`obj 0`) the first `make(A)` produced, served from C's pool,
because alias resolution re-enters the public `make` with token `C` and C's
pool policy applies there. -/
theorem alias_pool_counterexample :
    resOf c2r1 = some (.ok (.obj 0)) ∧
    mget (getScope (afterW c2r1) 0).pool "C" = some [.obj 0] ∧
    resOf c2r2 = some (.ok (.obj 0)) := by
  decide

/-- C2 amended: `make(A)` misses A's own policy lookup, so nothing is ever
cached or served under key `A` (A has no pool entry after either call), but
since alias resolution re-invokes the public `make(C)`, C's pool caching
applies to `make(A)`'s result: the second `make(A)` returns the instance
cached under `C`, and `make(C)` returns that same instance.  Caching is
keyed to the exact token passed to each (possibly nested) `make`
invocation, not resolved through the alias map. -/
theorem alias_pool_amended :
    resOf c2r1 = some (.ok (.obj 0)) ∧
    mget (getScope (afterW c2r1) 0).pool "A" = none ∧
    mget (getScope (afterW c2r1) 0).pool "C" = some [.obj 0] ∧
    resOf c2r2 = some (.ok (.obj 0)) ∧
    mget (getScope (afterW c2r2) 0).pool "A" = none ∧
    resOf (make 50 (afterW c2r2) 0 "C" none) = some (.ok (.obj 0)) := by
  decide

/-- C3: with mutually dependent singleton providers for `A` and `B` (each
storing, not dereferencing, the other), `make(A)` terminates (within fuel
50) because the in-flight stack turns the re-entrant request for `A` into a
forwarding placeholder; the instance stored inside A is the real B
instance, dereferencing it behaves as the `make(B)` that the same policy
yields (the identical cached instance), and dereferencing the placeholder
B stored forwards to the real A instance. -/
theorem cycle_terminates_and_forwards :
    resOf c3r1 = some (.ok c3objA) ∧
    resOf (make 50 (afterW c3r1) 0 "B" none) = some (.ok c3objB) ∧
    resOf (force 50 (afterW c3r1) c3objB) = some (.ok c3objB) ∧
    resOf (force 50 (afterW c3r1) (.lazyV 0 "A" none)) = some (.ok c3objA) := by
  decide

/-- C4: with `provide(T, f, pool 2)` and a factory tagging instances with a
running sequence number, five `make(T)` calls return the tag sequence
0, 1, 0, 1, 0: the first two are fresh, the third recycles the last cached
element to the front, and so on. -/
theorem pool_rotation :
    resOf c4r1 = some (.ok (.obj 0)) ∧
    resOf c4r2 = some (.ok (.obj 1)) ∧
    resOf c4r3 = some (.ok (.obj 0)) ∧
    resOf c4r4 = some (.ok (.obj 1)) ∧
    resOf c4r5 = some (.ok (.obj 0)) := by
  decide

/-- C5: with singleton providers, two `make(T)` calls on the root return
the identical instance (`obj 0` twice); each of two sibling child scopes
created via `inner` that registered its own singleton provider returns its
own instance (`obj 1` and `obj 2`), distinct from each other and from the
root's, and the child's repeat call returns its own cached instance. -/
theorem singleton_per_scope :
    resOf c5p1 = some (.ok (.obj 0)) ∧
    resOf c5p2 = some (.ok (.obj 0)) ∧
    resOf c5a1 = some (.ok (.obj 1)) ∧
    resOf c5a2 = some (.ok (.obj 1)) ∧
    resOf c5b1 = some (.ok (.obj 2)) := by
  decide

/-- C10: the cache capacity derived from an options object with a
`singleton` key is 1 regardless of the stored boolean, because key presence
decides the policy kind; behaviourally, `{singleton: false}` registered via
`provide` or via `bind` still yields capacity-1 caching (the second call
returns the identical cached instance). -/
theorem singleton_key_presence_decides :
    activeCap (optCap (some (.singleton false))) = some 1 ∧
    activeCap (optCap (some (.singleton true))) = some 1 ∧
    resOf c10r1 = some (.ok (.obj 0)) ∧
    resOf c10r2 = some (.ok (.obj 0)) ∧
    resOf c10b1 = some (.ok (.obj 0)) ∧
    resOf c10b2 = some (.ok (.obj 0)) := by
  decide


/-! ### Basic lemmas -/

theorem mget_mset {α : Type} (l : List (String × α)) (t u : String) (v : α) :
    mget (mset l t v) u = if t = u then some v else mget l u := by
  induction l with
  | nil => by_cases h : t = u <;> simp [mget, mset, h]
  | cons p r ih =>
    obtain ⟨k, x⟩ := p
    by_cases hk : k = t
    · subst hk
      by_cases hu : k = u <;> simp [mget, mset, hu]
    · by_cases hu : k = u
      · subst hu
        have ht : ¬t = k := fun h => hk h.symm
        simp [mget, mset, hk, ht]
      · simp [mget, mset, hk, hu, ih]

theorem mget_mem {α : Type} {l : List (String × α)} {t : String} {v : α}
    (h : mget l t = some v) : (t, v) ∈ l := by
  induction l with
  | nil => simp [mget] at h
  | cons p r ih =>
    obtain ⟨k, x⟩ := p
    by_cases hk : k = t
    · subst hk
      simp [mget] at h
      subst h
      exact List.mem_cons_self _ _
    · simp [mget, hk] at h
      exact List.mem_cons_of_mem _ (ih h)

theorem mem_mset {α : Type} {l : List (String × α)} {t : String} {v : α} {e : String × α}
    (h : e ∈ mset l t v) : e ∈ l ∨ e = (t, v) := by
  induction l with
  | nil =>
    simp [mset] at h
    right
    simp [h]
  | cons p r ih =>
    obtain ⟨k, x⟩ := p
    by_cases hk : k = t
    · subst hk
      simp [mset] at h
      rcases h with h | h
      · right; simp [h]
      · left; exact List.mem_cons_of_mem _ h
    · simp [mset, hk] at h
      rcases h with h | h
      · left; simp [h]
      · rcases ih h with h2 | h2
        · left; exact List.mem_cons_of_mem _ h2
        · right; exact h2

theorem scopes_setScope (w : World) (i : Nat) (s : RuntimeContainer) :
    (setScope w i s).scopes.length = w.scopes.length := by
  simp [setScope]

theorem getScope_setScope (w : World) (i j : Nat) (s : RuntimeContainer) :
    getScope (setScope w i s) j = if j = i ∧ i < w.scopes.length then s else getScope w j := by
  by_cases hlt : i < w.scopes.length
  · unfold getScope setScope
    simp only [List.getD, List.get?_eq_getElem?]
    rw [List.getElem?_set]
    by_cases hij : i = j
    · subst hij
      simp [hlt]
    · have hc : ¬(j = i ∧ i < w.scopes.length) := fun hc => hij hc.1.symm
      simp [hij, hc]
  · have hs : (setScope w i s).scopes = w.scopes := by
      simp [setScope, List.set_eq_of_length_le (by omega : w.scopes.length ≤ i)]
    have hg : getScope (setScope w i s) j = getScope w j := by
      unfold getScope
      rw [hs]
    rw [hg]
    have hc : ¬(j = i ∧ i < w.scopes.length) := fun hc => hlt hc.2
    simp [hc]

theorem getScope_mem {w : World} {i : Nat} (h : i < w.scopes.length) :
    getScope w i ∈ w.scopes := by
  unfold getScope
  rw [List.getD_eq_getElem _ _ h]
  exact List.getElem_mem h

theorem getScope_default {w : World} {i : Nat} (h : ¬i < w.scopes.length) :
    getScope w i = emptyContainer none := by
  unfold getScope
  rw [List.getD_eq_default]
  omega

/-! ### StepInv machinery -/

theorem regEq_refl (w : World) : RegEq w w :=
  ⟨rfl, fun _ => ⟨rfl, rfl, rfl, rfl, rfl⟩⟩

theorem regEq_trans {w w1 w2 : World} (h1 : RegEq w w1) (h2 : RegEq w1 w2) : RegEq w w2 :=
  ⟨h2.1.trans h1.1, fun i =>
    ⟨(h2.2 i).1.trans (h1.2 i).1, (h2.2 i).2.1.trans (h1.2 i).2.1,
     (h2.2 i).2.2.1.trans (h1.2 i).2.2.1, (h2.2 i).2.2.2.1.trans (h1.2 i).2.2.2.1,
     (h2.2 i).2.2.2.2.trans (h1.2 i).2.2.2.2⟩⟩

theorem stepInv_refl (w : World) : StepInv w w :=
  ⟨regEq_refl w, fun _ => rfl, id, fun _ _ _ => rfl⟩

theorem stepInv_trans {w w1 w2 : World} (h1 : StepInv w w1) (h2 : StepInv w1 w2) :
    StepInv w w2 := by
  obtain ⟨r1, s1, n1, p1⟩ := h1
  obtain ⟨r2, s2, n2, p2⟩ := h2
  refine ⟨regEq_trans r1 r2, fun i => (s2 i).trans (s1 i), fun h => n2 (n1 h), fun s t h => ?_⟩
  have h1b : mget (getScope w1 s).bindOptions t = none := by
    rw [(r1.2 s).2.2.2.2]
    exact h
  exact (p2 s t h1b).trans (p1 s t h)

theorem regEq_setScope (w : World) (i : Nat) (s : RuntimeContainer)
    (h1 : s.parent = (getScope w i).parent) (h2 : s.providers = (getScope w i).providers)
    (h3 : s.hints = (getScope w i).hints) (h4 : s.bindings = (getScope w i).bindings)
    (h5 : s.bindOptions = (getScope w i).bindOptions) :
    RegEq w (setScope w i s) := by
  refine ⟨scopes_setScope w i s, fun j => ?_⟩
  rw [getScope_setScope]
  split
  · next hj =>
    obtain ⟨hj1, _⟩ := hj
    subst hj1
    exact ⟨h1, h2, h3, h4, h5⟩
  · exact ⟨rfl, rfl, rfl, rfl, rfl⟩

theorem noLazy_scopePool {w : World} {i : Nat} (hnl : NoLazyInPools w) :
    ∀ e ∈ (getScope w i).pool, ∀ v ∈ e.2, isLazy v = false := by
  by_cases hlt : i < w.scopes.length
  · exact fun e he v hv => hnl _ (getScope_mem hlt) e he v hv
  · rw [getScope_default hlt]
    simp [emptyContainer]

theorem noLazy_setScope {w : World} {i : Nat} {s : RuntimeContainer}
    (hnl : NoLazyInPools w)
    (hs : ∀ e ∈ s.pool, ∀ v ∈ e.2, isLazy v = false) :
    NoLazyInPools (setScope w i s) := by
  intro s2 hs2 e he v hv
  rcases List.mem_or_eq_of_mem_set hs2 with h | h
  · exact hnl s2 h e he v hv
  · subst h
    exact hs e he v hv

theorem stepInv_poolMset (w : World) (i : Nat) (token : String) (xs : List Value)
    (hbo : mget (getScope w i).bindOptions token ≠ none)
    (hlz : NoLazyInPools w → ∀ v ∈ xs, isLazy v = false) :
    StepInv w (setScope w i { getScope w i with pool := mset (getScope w i).pool token xs }) := by
  refine ⟨regEq_setScope w i _ rfl rfl rfl rfl rfl, fun j => ?_, fun hnl => ?_, fun sc t h => ?_⟩
  · rw [getScope_setScope]
    split
    · next hj =>
      obtain ⟨hj1, _⟩ := hj
      subst hj1
      rfl
    · rfl
  · refine noLazy_setScope hnl ?_
    intro e he v hv
    rcases mem_mset he with h | h
    · exact noLazy_scopePool hnl e h v hv
    · subst h
      exact hlz hnl v hv
  · rw [getScope_setScope]
    split
    · next hj =>
      obtain ⟨hj1, _⟩ := hj
      subst hj1
      show mget (mset (getScope w sc).pool token xs) t = mget (getScope w sc).pool t
      rw [mget_mset]
      split
      · next ht =>
        subst ht
        exact absurd h hbo
      · rfl
    · rfl

theorem makeStack_pushStack (w : World) (sid : Nat) (token : String) (j : Nat) :
    (getScope (pushStack w sid token) j).makeStack =
      if j = sid ∧ sid < w.scopes.length then (getScope w sid).makeStack ++ [token]
      else (getScope w j).makeStack := by
  unfold pushStack
  rw [getScope_setScope]
  split
  · next hj =>
    obtain ⟨hj1, _⟩ := hj
    subst hj1
    rfl
  · rfl

theorem pool_pushStack (w : World) (sid : Nat) (token : String) (j : Nat) :
    (getScope (pushStack w sid token) j).pool = (getScope w j).pool := by
  unfold pushStack
  rw [getScope_setScope]
  split
  · next hj =>
    obtain ⟨hj1, _⟩ := hj
    subst hj1
    rfl
  · rfl

theorem bindOptions_pushStack (w : World) (sid : Nat) (token : String) (j : Nat) :
    (getScope (pushStack w sid token) j).bindOptions = (getScope w j).bindOptions := by
  unfold pushStack
  rw [getScope_setScope]
  split
  · next hj =>
    obtain ⟨hj1, _⟩ := hj
    subst hj1
    rfl
  · rfl

theorem scopes_pushStack (w : World) (sid : Nat) (token : String) :
    (pushStack w sid token).scopes.length = w.scopes.length :=
  scopes_setScope w sid _

theorem regEq_pushStack (w : World) (sid : Nat) (token : String) :
    RegEq w (pushStack w sid token) :=
  regEq_setScope w sid _ rfl rfl rfl rfl rfl

theorem noLazy_pushStack {w : World} {sid : Nat} {token : String}
    (hnl : NoLazyInPools w) : NoLazyInPools (pushStack w sid token) :=
  noLazy_setScope hnl (noLazy_scopePool hnl)

theorem stepInv_sandwich {w w2 : World} {sid : Nat} {token : String}
    (h : StepInv (pushStack w sid token) w2) : StepInv w (popStack w2 sid) := by
  obtain ⟨hr, hs, hn, hp⟩ := h
  have hlen2 : w2.scopes.length = w.scopes.length :=
    hr.1.trans (scopes_pushStack w sid token)
  refine ⟨?_, fun i => ?_, fun hnl => ?_, fun sc t ht => ?_⟩
  · exact regEq_trans (regEq_pushStack w sid token)
      (regEq_trans hr (regEq_setScope w2 sid _ rfl rfl rfl rfl rfl))
  · unfold popStack
    rw [getScope_setScope]
    split
    · next hj =>
      obtain ⟨hj1, hj2⟩ := hj
      rw [hj1]
      show (getScope w2 sid).makeStack.dropLast = (getScope w sid).makeStack
      rw [hs sid, makeStack_pushStack]
      have hlt : sid < w.scopes.length := by omega
      simp [hlt, List.dropLast_concat]
    · next hj =>
      rw [hs i, makeStack_pushStack]
      by_cases hi : i = sid ∧ sid < w.scopes.length
      · exfalso
        exact hj ⟨hi.1, by omega⟩
      · simp [hi]
  · have hnl2 : NoLazyInPools w2 := hn (noLazy_pushStack hnl)
    exact noLazy_setScope hnl2 (noLazy_scopePool hnl2)
  · have htp : mget (getScope (pushStack w sid token) sc).bindOptions t = none := by
      rw [bindOptions_pushStack]
      exact ht
    have h2 : mget (getScope w2 sc).pool t = mget (getScope w sc).pool t := by
      rw [hp sc t htp, pool_pushStack]
    unfold popStack
    rw [getScope_setScope]
    split
    · next hj =>
      obtain ⟨hj1, _⟩ := hj
      rw [hj1] at h2 ⊢
      exact h2
    · exact h2



/-! ### The engine preserves the step invariant -/

theorem activeCap_pos {c : Option Int} {n : Int} (h : activeCap c = some n) : 0 < n := by
  cases c with
  | none => simp [activeCap] at h
  | some m =>
    by_cases hm : 0 < m
    · have hc : activeCap (some m) = some m := by simp [activeCap, hm]
      rw [hc] at h
      injection h with h2
      omega
    · have hc : activeCap (some m) = none := by simp [activeCap, hm]
      rw [hc] at h
      cases h

theorem noLazy_getD {w : World} {i : Nat} {t : String} (hnl : NoLazyInPools w) :
    ∀ v ∈ (mget (getScope w i).pool t).getD [], isLazy v = false := by
  cases hm : mget (getScope w i).pool t with
  | none => simp
  | some xs =>
    simp only [Option.getD_some]
    exact fun v hv => noLazy_scopePool hnl _ (mget_mem hm) v hv

theorem stepInv_nextId (w : World) (k : Nat) : StepInv w ⟨w.scopes, k⟩ :=
  ⟨⟨rfl, fun _ => ⟨rfl, rfl, rfl, rfl, rfl⟩⟩, fun _ => rfl, fun hnl => hnl, fun _ _ _ => rfl⟩

theorem exec_stepInv :
    ∀ (f : Nat) (w : World) (c : Call) (res : Except Err Value) (w' : World),
      exec f w c = some (res, w') → StepInv w w' := by
  intro f
  induction f with
  | zero =>
    intro w c res w' h
    simp [exec] at h
  | succ f ih =>
    intro w c res w' h
    cases c with
    | mk sid token hint =>
      simp only [exec] at h
      cases hcap : activeCap (optCap (mget (getScope w sid).bindOptions token)) with
      | none =>
        simp only [hcap] at h
        exact ih w (.mkP sid sid token hint) res w' h
      | some n =>
        simp only [hcap] at h
        have hbo : mget (getScope w sid).bindOptions token ≠ none := by
          intro hh
          rw [hh] at hcap
          simp [optCap, activeCap] at hcap
        have hnpos : 0 < n := activeCap_pos hcap
        cases hent : mget (getScope w sid).pool token with
        | none =>
          simp only [hent, Option.getD_none] at h
          have hfull : ¬((([] : List Value).length : Int) ≥ n) := by
            simp
            omega
          rw [if_neg hfull] at h
          have hstep1 : StepInv w
              (setScope w sid { getScope w sid with pool := mset (getScope w sid).pool token [] }) :=
            stepInv_poolMset w sid token [] hbo (fun _ => by simp)
          cases hm : exec f
              (setScope w sid { getScope w sid with pool := mset (getScope w sid).pool token [] })
              (.mkP sid sid token hint) with
          | none => simp [hm] at h
          | some pr =>
            obtain ⟨res2, w2⟩ := pr
            have hinv2 : StepInv w w2 := stepInv_trans hstep1 (ih _ _ res2 w2 hm)
            cases res2 with
            | error e =>
              simp only [hm, Option.some.injEq, Prod.mk.injEq] at h
              obtain ⟨h1, h2⟩ := h
              subst h2
              exact hinv2
            | ok r =>
              simp only [hm] at h
              by_cases hins :
                  isLazy r = false ∧ (((mget (getScope w2 sid).pool token).getD []).length : Int) < n
              · rw [if_pos hins] at h
                simp only [Option.some.injEq, Prod.mk.injEq] at h
                obtain ⟨h1, h2⟩ := h
                subst h2
                refine stepInv_trans hinv2 (stepInv_poolMset w2 sid token _ ?_ ?_)
                · rw [(hinv2.1.2 sid).2.2.2.2]
                  exact hbo
                · intro hnl v hv
                  rcases List.mem_cons.mp hv with h3 | h3
                  · subst h3
                    exact hins.1
                  · exact noLazy_getD hnl v h3
              · rw [if_neg hins] at h
                simp only [Option.some.injEq, Prod.mk.injEq] at h
                obtain ⟨h1, h2⟩ := h
                subst h2
                exact hinv2
        | some xs =>
          simp only [hent, Option.getD_some] at h
          by_cases hfull : ((xs.length : Int) ≥ n)
          · rw [if_pos hfull] at h
            cases hlast : xs.getLast? with
            | none => simp [hlast] at h
            | some inst =>
              simp only [hlast, Option.some.injEq, Prod.mk.injEq] at h
              obtain ⟨h1, h2⟩ := h
              subst h2
              refine stepInv_poolMset w sid token _ hbo ?_
              intro hnl v hv
              have hxs : ∀ v2 ∈ xs, isLazy v2 = false :=
                fun v2 hv2 => noLazy_scopePool hnl _ (mget_mem hent) v2 hv2
              rcases List.mem_cons.mp hv with h3 | h3
              · subst h3
                refine hxs v ?_
                have hx2 := List.dropLast_append_getLast? v hlast
                rw [← hx2]
                simp
              · exact hxs v (List.dropLast_subset xs h3)
          · rw [if_neg hfull] at h
            cases hm : exec f w (.mkP sid sid token hint) with
            | none => simp [hm] at h
            | some pr =>
              obtain ⟨res2, w2⟩ := pr
              have hinv2 : StepInv w w2 := ih w _ res2 w2 hm
              cases res2 with
              | error e =>
                simp only [hm, Option.some.injEq, Prod.mk.injEq] at h
                obtain ⟨h1, h2⟩ := h
                subst h2
                exact hinv2
              | ok r =>
                simp only [hm] at h
                by_cases hins :
                    isLazy r = false ∧
                      (((mget (getScope w2 sid).pool token).getD []).length : Int) < n
                · rw [if_pos hins] at h
                  simp only [Option.some.injEq, Prod.mk.injEq] at h
                  obtain ⟨h1, h2⟩ := h
                  subst h2
                  refine stepInv_trans hinv2 (stepInv_poolMset w2 sid token _ ?_ ?_)
                  · rw [(hinv2.1.2 sid).2.2.2.2]
                    exact hbo
                  · intro hnl v hv
                    rcases List.mem_cons.mp hv with h3 | h3
                    · subst h3
                      exact hins.1
                    · exact noLazy_getD hnl v h3
                · rw [if_neg hins] at h
                  simp only [Option.some.injEq, Prod.mk.injEq] at h
                  obtain ⟨h1, h2⟩ := h
                  subst h2
                  exact hinv2
    | mkP sid csid token hint =>
      simp only [exec] at h
      cases hat : aliasTarget (getScope w sid) token with
      | some b =>
        simp only [hat] at h
        exact ih w (.mk sid b none) res w' h
      | none =>
        simp only [hat] at h
        by_cases hstk : token ∈ (getScope w sid).makeStack
        · rw [if_pos hstk] at h
          simp only [Option.some.injEq, Prod.mk.injEq] at h
          obtain ⟨h1, h2⟩ := h
          subst h2
          exact stepInv_refl w
        · rw [if_neg hstk] at h
          cases hp : mget (getScope w sid).providers token with
          | none =>
            simp only [hp] at h
            cases hpar : (getScope w sid).parent with
            | none =>
              simp only [hpar, Option.some.injEq, Prod.mk.injEq] at h
              obtain ⟨h1, h2⟩ := h
              subst h2
              exact stepInv_sandwich (stepInv_refl _)
            | some p =>
              simp only [hpar] at h
              cases hm : exec f (pushStack w sid token) (.mkP p csid token hint) with
              | none => simp [hm] at h
              | some pr =>
                obtain ⟨res2, w2⟩ := pr
                simp only [hm, Option.some.injEq, Prod.mk.injEq] at h
                obtain ⟨h1, h2⟩ := h
                subst h2
                exact stepInv_sandwich (ih _ _ _ _ hm)
          | some prov =>
            simp only [hp] at h
            cases hm : exec f (pushStack w sid token)
                (.run prov csid (hintOr hint (mget (getScope w sid).hints token))) with
            | none => simp [hm] at h
            | some pr =>
              obtain ⟨res2, w2⟩ := pr
              simp only [hm, Option.some.injEq, Prod.mk.injEq] at h
              obtain ⟨h1, h2⟩ := h
              subst h2
              exact stepInv_sandwich (ih _ _ _ _ hm)
    | run p csid hint =>
      simp only [exec] at h
      cases p with
      | fresh =>
        simp only [Option.some.injEq, Prod.mk.injEq] at h
        obtain ⟨h1, h2⟩ := h
        subst h2
        exact stepInv_nextId w (w.nextId + 1)
      | freshDep dep =>
        cases hm : exec f w (.mk csid dep none) with
        | none => simp [hm] at h
        | some pr =>
          obtain ⟨res2, w2⟩ := pr
          cases res2 with
          | error e =>
            simp only [hm, Option.some.injEq, Prod.mk.injEq] at h
            obtain ⟨h1, h2⟩ := h
            subst h2
            exact ih w _ _ w2 hm
          | ok v =>
            simp only [hm, Option.some.injEq, Prod.mk.injEq] at h
            obtain ⟨h1, h2⟩ := h
            subst h2
            exact stepInv_trans (ih w _ _ w2 hm) (stepInv_nextId w2 (w2.nextId + 1))
      | throwErr msg =>
        simp only [Option.some.injEq, Prod.mk.injEq] at h
        obtain ⟨h1, h2⟩ := h
        subst h2
        exact stepInv_refl w

/-! ### Claim theorems building on the step invariant -/

/-- C6: for every completed public `make` call, every scope's resolution
stack equals its value before the call — the token is popped on every exit
path including provider failure (first conjunct, derived from the engine's
step invariant); concretely, a throwing provider's exception propagates
unmodified to the caller of `make` (as `provErr "boom"`) and the entire
final world — resolution stacks included — is the world the call started
from (second conjunct). -/
theorem provider_failure_unwinds_stack :
    (∀ (fuel : Nat) (w : World) (sid : Nat) (token : String) (hint : Option Nat)
        (res : Except Err Value) (w' : World),
        make fuel w sid token hint = some (res, w') →
        ∀ i, (getScope w' i).makeStack = (getScope w i).makeStack) ∧
    (make 50 wBoom 0 "T" none = some (.error (.provErr "boom"), wBoom) ∧
      (getScope wBoom 0).makeStack = []) := by
  constructor
  · intro fuel w sid token hint res w' h i
    exact (exec_stepInv fuel w _ res w' h).2.1 i
  · exact ⟨by decide, by decide⟩

/-- Witness for C6: the stack-restoration conjunct applied to the concrete
throwing-provider world. -/
theorem provider_failure_unwinds_stack_witness :
    (getScope wBoom 0).makeStack = (getScope wBoom 0).makeStack :=
  provider_failure_unwinds_stack.1 50 wBoom 0 "T" none
    (.error (.provErr "boom")) wBoom (by decide) 0

/-- C8: a forwarding placeholder is never inserted into any instance cache:
if no pool holds a placeholder before an engine step (public `make`,
internal resolution or provider run), none holds one after, because the
insertion site is guarded by the placeholder type predicate. -/
theorem placeholder_never_cached :
    ∀ (fuel : Nat) (w : World) (c : Call) (res : Except Err Value) (w' : World),
      NoLazyInPools w → exec fuel w c = some (res, w') → NoLazyInPools w' :=
  fun fuel w c res w' hnl h => (exec_stepInv fuel w c res w' h).2.2.1 hnl

/-- Witness for C8: the cycle run that actually creates a forwarding
placeholder (and stores it inside a cached instance) still leaves every
pool free of placeholders. -/
theorem placeholder_never_cached_witness : NoLazyInPools w3after :=
  placeholder_never_cached 50 w3scen (.mk 0 "A" none) (.ok c3objA) w3after
    (by decide) (by decide)

/-- C9: cache locality.  First conjunct: a completed `make` never changes
the pool of any (scope, token) pair that has no locally registered policy —
in particular, delegation to an ancestor's provider caches nothing on the
ancestor's behalf in the invoked scope and nothing in any policy-free
ancestor.  Second conjunct: cache-policy lookup is strictly local — when
the invoked scope's own registry has no options for the token, the public
`make` is exactly the internal resolution step (no cache read, no recycle),
whatever policies or cached instances any ancestor holds.  Third conjunct,
concretely: a child of a scope with a singleton policy and cached parent
instances gets fresh instances on every call and its own pool stays empty
(policy and cache are not inherited), while the parent's own calls are
cached. -/
theorem cache_policy_scope_local :
    (∀ (fuel : Nat) (w : World) (sid : Nat) (token : String) (hint : Option Nat)
        (res : Except Err Value) (w' : World),
        make fuel w sid token hint = some (res, w') →
        ∀ s t, mget (getScope w s).bindOptions t = none →
          mget (getScope w' s).pool t = mget (getScope w s).pool t) ∧
    (∀ (fuel : Nat) (w : World) (sid : Nat) (token : String) (hint : Option Nat),
        mget (getScope w sid).bindOptions token = none →
        make (fuel + 1) w sid token hint = exec fuel w (.mkP sid sid token hint)) ∧
    (resOf c9a1 = some (.ok (.obj 0)) ∧ resOf c9a2 = some (.ok (.obj 1)) ∧
      resOf c9p1 = some (.ok (.obj 2)) ∧ resOf c9p2 = some (.ok (.obj 2)) ∧
      mget (getScope (afterW c9a2) 1).pool "T" = none) := by
  refine ⟨?_, ?_, ?_, ?_, ?_, ?_, ?_⟩
  · intro fuel w sid token hint res w' h s t ht
    exact (exec_stepInv fuel w _ res w' h).2.2.2 s t ht
  · intro fuel w sid token hint h
    show exec (fuel + 1) w (.mk sid token hint) = _
    simp only [exec, h, optCap, activeCap]
  · decide
  · decide
  · decide
  · decide
  · decide

/-- Witness for C9: the pool-locality conjunct applied to the concrete
child-resolves-through-parent run. -/
theorem cache_policy_scope_local_witness :
    mget (getScope wC9after 1).pool "T" = mget (getScope wC9 1).pool "T" :=
  cache_policy_scope_local.1 50 wC9 1 "T" none (.ok (.obj 0)) wC9after
    (by decide) 1 "T" (by decide)


/-! ### The missing-provider error against the specification-side search -/

theorem poolsFree_mget {w : World} (hp : PoolsFree w) (sid : Nat) (token : String) :
    mget (getScope w sid).bindOptions token = none := by
  by_cases hlt : sid < w.scopes.length
  · rw [hp _ (getScope_mem hlt)]
    rfl
  · rw [getScope_default hlt]
    rfl

theorem nonResolving_mget {w : World} {sid : Nat} {token : String} {prov : Prov}
    (hn : NonResolving w) (h : mget (getScope w sid).providers token = some prov) :
    provResolving prov = false := by
  by_cases hlt : sid < w.scopes.length
  · exact hn _ (getScope_mem hlt) _ (mget_mem h)
  · rw [getScope_default hlt] at h
    cases h

theorem nonResolving_pushStack {w : World} {sid : Nat} {token : String}
    (h : NonResolving w) : NonResolving (pushStack w sid token) := by
  intro s hs e he
  have hs2 : s ∈ w.scopes.set sid
      { getScope w sid with makeStack := (getScope w sid).makeStack ++ [token] } := hs
  rcases List.mem_or_eq_of_mem_set hs2 with h2 | h2
  · exact h s h2 e he
  · subst h2
    have he2 : e ∈ (getScope w sid).providers := he
    by_cases hlt : sid < w.scopes.length
    · exact h _ (getScope_mem hlt) e he2
    · rw [getScope_default hlt] at he2
      cases he2

theorem poolsFree_pushStack {w : World} {sid : Nat} {token : String}
    (h : PoolsFree w) : PoolsFree (pushStack w sid token) := by
  intro s hs
  have hs2 : s ∈ w.scopes.set sid
      { getScope w sid with makeStack := (getScope w sid).makeStack ++ [token] } := hs
  rcases List.mem_or_eq_of_mem_set hs2 with h2 | h2
  · exact h s h2
  · subst h2
    show (getScope w sid).bindOptions = []
    by_cases hlt : sid < w.scopes.length
    · exact h _ (getScope_mem hlt)
    · rw [getScope_default hlt]
      rfl

theorem run_no_noProvider {f : Nat} {w : World} {prov : Prov} {csid : Nat} {hv : Option Nat}
    {res : Except Err Value} {w2 : World}
    (hpr : provResolving prov = false)
    (h : exec f w (.run prov csid hv) = some (res, w2)) :
    ∀ n, res ≠ .error (.noProvider n) := by
  cases f with
  | zero => simp [exec] at h
  | succ f =>
    cases prov with
    | fresh =>
      simp only [exec, Option.some.injEq, Prod.mk.injEq] at h
      obtain ⟨h1, _⟩ := h
      intro n hres
      rw [← h1] at hres
      cases hres
    | freshDep dep => simp [provResolving] at hpr
    | throwErr msg =>
      simp only [exec, Option.some.injEq, Prod.mk.injEq] at h
      obtain ⟨h1, _⟩ := h
      intro n hres
      rw [← h1] at hres
      cases hres

theorem exec_specSearch :
    ∀ (f : Nat),
      (∀ (w : World) (sid : Nat) (token : String) (hint : Option Nat)
          (res : Except Err Value) (w' : World),
          NonResolving w → PoolsFree w →
          exec f w (.mk sid token hint) = some (res, w') →
          ∃ out ws, specSearch f w (.smk sid token) = some (out, ws) ∧
            (∀ n, res = .error (.noProvider n) ↔ ∃ tf, out = .missing tf ∧ n = stripAt tf) ∧
            (out ≠ .found → ws = w')) ∧
      (∀ (w : World) (sid csid : Nat) (token : String) (hint : Option Nat)
          (res : Except Err Value) (w' : World),
          NonResolving w → PoolsFree w →
          exec f w (.mkP sid csid token hint) = some (res, w') →
          ∃ out ws, specSearch f w (.smkP sid token) = some (out, ws) ∧
            (∀ n, res = .error (.noProvider n) ↔ ∃ tf, out = .missing tf ∧ n = stripAt tf) ∧
            (out ≠ .found → ws = w')) := by
  intro f
  induction f with
  | zero =>
    constructor
    · intro w sid token hint res w' _ _ h
      simp [exec] at h
    · intro w sid csid token hint res w' _ _ h
      simp [exec] at h
  | succ f ih =>
    obtain ⟨ih1, ih2⟩ := ih
    constructor
    · intro w sid token hint res w' hnr hpf h
      simp only [exec] at h
      rw [poolsFree_mget hpf sid token] at h
      simp only [optCap, activeCap] at h
      obtain ⟨out, ws, hs, hmatch, hw⟩ := ih2 w sid sid token hint res w' hnr hpf h
      refine ⟨out, ws, ?_, hmatch, hw⟩
      simp only [specSearch]
      exact hs
    · intro w sid csid token hint res w' hnr hpf h
      simp only [exec] at h
      cases hat : aliasTarget (getScope w sid) token with
      | some b =>
        simp only [hat] at h
        obtain ⟨out, ws, hs, hmatch, hw⟩ := ih1 w sid b none res w' hnr hpf h
        refine ⟨out, ws, ?_, hmatch, hw⟩
        simp only [specSearch, hat]
        exact hs
      | none =>
        simp only [hat] at h
        by_cases hstk : token ∈ (getScope w sid).makeStack
        · rw [if_pos hstk] at h
          simp only [Option.some.injEq, Prod.mk.injEq] at h
          obtain ⟨h1, h2⟩ := h
          refine ⟨.cycled, w, ?_, ?_, ?_⟩
          · simp only [specSearch, hat]
            rw [if_pos hstk]
          · intro n
            constructor
            · intro hres
              rw [← h1] at hres
              cases hres
            · rintro ⟨tf, htf, _⟩
              cases htf
          · intro _
            exact h2
        · rw [if_neg hstk] at h
          cases hp : mget (getScope w sid).providers token with
          | some prov =>
            simp only [hp] at h
            cases hm : exec f (pushStack w sid token)
                (.run prov csid (hintOr hint (mget (getScope w sid).hints token))) with
            | none => simp [hm] at h
            | some pr =>
              obtain ⟨res2, w2⟩ := pr
              simp only [hm, Option.some.injEq, Prod.mk.injEq] at h
              obtain ⟨h1, h2⟩ := h
              refine ⟨.found, popStack (pushStack w sid token) sid, ?_, ?_, ?_⟩
              · simp only [specSearch, hat]
                rw [if_neg hstk]
                simp only [hp]
              · intro n
                constructor
                · intro hres
                  exfalso
                  rw [← h1] at hres
                  exact run_no_noProvider (nonResolving_mget hnr hp) hm n hres
                · rintro ⟨tf, htf, _⟩
                  cases htf
              · intro hfound
                exact absurd rfl hfound
          | none =>
            simp only [hp] at h
            cases hpar : (getScope w sid).parent with
            | none =>
              simp only [hpar, Option.some.injEq, Prod.mk.injEq] at h
              obtain ⟨h1, h2⟩ := h
              refine ⟨.missing token, popStack (pushStack w sid token) sid, ?_, ?_, ?_⟩
              · simp only [specSearch, hat]
                rw [if_neg hstk]
                simp only [hp, hpar]
              · intro n
                constructor
                · intro hres
                  refine ⟨token, rfl, ?_⟩
                  have h3 := h1.trans hres
                  injection h3 with h4
                  injection h4 with h5
                  exact h5.symm
                · rintro ⟨tf, htf, hn⟩
                  injection htf with h3
                  rw [← h1, hn, ← h3]
              · intro _
                exact h2
            | some p =>
              simp only [hpar] at h
              cases hm : exec f (pushStack w sid token) (.mkP p csid token hint) with
              | none => simp [hm] at h
              | some pr =>
                obtain ⟨res2, w2⟩ := pr
                simp only [hm, Option.some.injEq, Prod.mk.injEq] at h
                obtain ⟨h1, h2⟩ := h
                obtain ⟨out, ws, hs, hmatch, hw⟩ :=
                  ih2 (pushStack w sid token) p csid token hint res2 w2
                    (nonResolving_pushStack hnr) (poolsFree_pushStack hpf) hm
                refine ⟨out, popStack ws sid, ?_, ?_, ?_⟩
                · simp only [specSearch, hat]
                  rw [if_neg hstk]
                  simp only [hp, hpar, hs]
                · intro n
                  rw [← h1]
                  exact hmatch n
                · intro hfound
                  rw [hw hfound]
                  exact h2

/-- C7: under the hypotheses that registered providers are self-contained
and no cache policy is registered (so no call can be served from an
instance cache), a public `make` that completes fails with a
missing-provider error naming `n` if and only if the specification-side
resolution search — following every (truthy) alias, walking the full
ancestor chain and short-circuiting on an in-flight cycle — bottoms out
with no registered provider for the finally reached (possibly aliased)
token, and `n` is that token's human-readable name: the token with the
suffix beginning at its first `@` stripped. -/
theorem missing_provider_error_iff :
    ∀ (fuel : Nat) (w : World) (sid : Nat) (token : String) (hint : Option Nat)
      (res : Except Err Value) (w' : World),
      NonResolving w → PoolsFree w →
      make fuel w sid token hint = some (res, w') →
      ∀ n, (res = .error (.noProvider n) ↔
        ∃ tf ws, specSearch fuel w (.smk sid token) = some (.missing tf, ws) ∧
          n = stripAt tf) := by
  intro fuel w sid token hint res w' hnr hpf h n
  obtain ⟨out, ws, hs, hmatch, _⟩ := (exec_specSearch fuel).1 w sid token hint res w' hnr hpf h
  constructor
  · intro hres
    obtain ⟨tf, htf, hn⟩ := (hmatch n).mp hres
    refine ⟨tf, ws, ?_, hn⟩
    rw [← htf]
    exact hs
  · rintro ⟨tf, ws2, hs2, hn⟩
    rw [hs] at hs2
    simp only [Option.some.injEq, Prod.mk.injEq] at hs2
    obtain ⟨hs3, _⟩ := hs2
    exact (hmatch n).mpr ⟨tf, hs3, hn⟩

/-- Witness for C7: the concrete world whose root aliases a token with an
`@`-suffix to an unprovided target; `make` on the child scope fails naming
the stripped alias target, and the search agrees. -/
theorem missing_provider_error_iff_witness :
    ((Except.error (Err.noProvider "B") : Except Err Value) = .error (.noProvider "B")) ↔
      ∃ tf ws, specSearch 50 w7scen (.smk 1 "A@v1") = some (.missing tf, ws) ∧
        "B" = stripAt tf :=
  missing_provider_error_iff 50 w7scen 1 "A@v1" none (.error (.noProvider "B")) w7scen
    (by decide) (by decide) (by decide) "B"

end Autocontainer
